import Mathlib

/-!
Shallow embedding of the Rewise review-tracking core
(`src/helpers/__init__.py` and `src/dashboard_helpers.py`).

Python strings are modelled as Lean `String`s, Python `float`s as `ℚ`
(the claims under study depend only on exact decimal values such as
`0.1`, `0.95`, `1.0`, for which rational arithmetic agrees with the
observable behaviour of IEEE doubles after clamping), Python `int` as
`ℤ`, and Python `dict` keyed by strings as association lists with
first-insertion order and value overwrite, which is Python's observable
dict behaviour.

The string primitives (`split`, `strip`, `lower`, `startswith`,
substring test) are written as structural recursions over `List Char`
so that every definition evaluates by kernel reduction; each is a
direct model of the corresponding Python `str` method on the ASCII
inputs the program manipulates.
-/

/-- Python `str.split(sep)` for a one-character separator `c`:
splitting the empty text yields `[""]`, and every occurrence of the
separator produces a boundary. -/
def splitOnChar (c : Char) : List Char → List (List Char)
  | [] => [[]]
  | x :: xs =>
    let r := splitOnChar c xs
    if x == c then [] :: r
    else
      match r with
      | h :: t => (x :: h) :: t
      | [] => [[x]]

/-- Python `s.split(c)` as a list of strings. -/
def strSplitOnChar (s : String) (c : Char) : List String :=
  (splitOnChar c s.data).map (fun l => ⟨l⟩)

/-- Python `c in s` for a single character. -/
def strContainsChar (s : String) (c : Char) : Bool :=
  s.data.contains c

/-- Python `str.strip()` (whitespace from both ends). -/
def pyStrip (s : String) : String :=
  ⟨((s.data.dropWhile Char.isWhitespace).reverse.dropWhile Char.isWhitespace).reverse⟩

/-- Python `str.lower()` (ASCII case folding, which covers every title
and reserved name the program compares). -/
def pyLower (s : String) : String :=
  ⟨s.data.map Char.toLower⟩

/-- Test that `l` starts with `pat` (Python `str.startswith`). -/
def listStartsWith : List Char → List Char → Bool
  | _, [] => true
  | [], _ :: _ => false
  | a :: as, b :: bs => a == b && listStartsWith as bs

/-- Python `s.startswith(pat)`. -/
def startsWithStr (s pat : String) : Bool :=
  listStartsWith s.data pat.data

/-- Test that `pat` occurs as a contiguous substring of `l` (Python `pat in l`). -/
def hasSubstring (pat : List Char) : List Char → Bool
  | [] => pat.isEmpty
  | x :: xs => listStartsWith (x :: xs) pat || hasSubstring pat xs

/-- Python `a in b` on strings. -/
def strIn (a b : String) : Bool :=
  hasSubstring a.data b.data

/-- Python `"\n".join(lines)`-style join with a separator string. -/
def joinLines (sep : String) : List String → String
  | [] => ""
  | [x] => x
  | x :: y :: rest => x ++ sep ++ joinLines sep (y :: rest)

/-- Numeric value of a digit list, most significant first. -/
def digitsToNat (ds : List Char) : ℕ :=
  ds.foldl (fun a c => a * 10 + (c.toNat - 48)) 0

/-- Exponent tail of a Python float literal: after `e`/`E`, an optional
sign and a nonempty digit run consuming the rest of the input. -/
def pyFloatExpPart (sign mant : ℚ) (cs : List Char) : Option ℚ :=
  let p : ℤ × List Char :=
    match cs with
    | '+' :: r => (1, r)
    | '-' :: r => (-1, r)
    | r => (1, r)
  let ed := p.2.takeWhile Char.isDigit
  let rest := p.2.dropWhile Char.isDigit
  if ed.isEmpty || !rest.isEmpty then none
  else some (sign * mant * (10 : ℚ) ^ (p.1 * (digitsToNat ed : ℤ)))

/-- After the mantissa of a Python float literal: end of input, or an
exponent part. Anything else is a parse failure (`ValueError`). -/
def pyFloatAfterMant (sign mant : ℚ) : List Char → Option ℚ
  | [] => some (sign * mant)
  | 'e' :: r => pyFloatExpPart sign mant r
  | 'E' :: r => pyFloatExpPart sign mant r
  | _ => none

/-- Model of Python `float(s)` on already-stripped input: optional
sign, then `digits [. digits] | . digits`, then an optional exponent.
Returns `none` where `float` raises `ValueError`. (The special forms
`inf`/`nan`/underscores never occur in this program's data.) -/
def pyFloat (s : String) : Option ℚ :=
  let p : ℚ × List Char :=
    match s.data with
    | '+' :: r => (1, r)
    | '-' :: r => (-1, r)
    | r => (1, r)
  let ip := p.2.takeWhile Char.isDigit
  let cs2 := p.2.dropWhile Char.isDigit
  match cs2 with
  | '.' :: r =>
    let fp := r.takeWhile Char.isDigit
    let cs3 := r.dropWhile Char.isDigit
    if ip.isEmpty && fp.isEmpty then none
    else pyFloatAfterMant p.1
      ((digitsToNat ip : ℚ) + (digitsToNat fp : ℚ) / (10 : ℚ) ^ fp.length) cs3
  | _ =>
    if ip.isEmpty then none
    else pyFloatAfterMant p.1 (digitsToNat ip : ℚ) cs2

/-- Model of Python `int(s)` on already-stripped input: optional sign
and a nonempty digit run. Returns `none` where `int` raises. -/
def pyInt (s : String) : Option ℤ :=
  let p : ℤ × List Char :=
    match s.data with
    | '+' :: r => (1, r)
    | '-' :: r => (-1, r)
    | r => (1, r)
  let ds := p.2.takeWhile Char.isDigit
  let rest := p.2.dropWhile Char.isDigit
  if ds.isEmpty || !rest.isEmpty then none
  else some (p.1 * (digitsToNat ds : ℤ))

/-- One parsed ledger entry: the load-bearing fields of a
`page_id|last_reviewed|confidence|review_count|...` line
(`get_page_tracking_data`, src/helpers/__init__.py lines 181-204). -/
structure TrackingRecord where
  last_reviewed : String
  confidence : ℚ
  review_count : ℤ
deriving Repr, DecidableEq

/-- Python `d[k] = v` on a string-keyed dict: overwrite in place if the
key exists, otherwise append at the end (insertion order preserved). -/
def dictInsert {α : Type} (d : List (String × α)) (k : String) (v : α) :
    List (String × α) :=
  if d.any (fun p => p.1 == k) then
    d.map (fun p => if p.1 == k then (k, v) else p)
  else d ++ [(k, v)]

/-- Python `d.get(k)` / `k in d` probe on the association list. -/
def dictLookup {α : Type} (d : List (String × α)) (k : String) : Option α :=
  (d.find? (fun p => p.1 == k)).map Prod.snd

/-- The decoded ledger: `page_id ↦ TrackingRecord`. -/
abbrev Ledger := List (String × TrackingRecord)

/-- Body of the block loop of `get_page_tracking_data` for one block
text: lines with a pipe and at least 4 pipe-delimited fields produce a
record (empty confidence/count fields default to `0.0`/`0`); other
lines are skipped. A non-empty, non-numeric confidence or count field
makes `float`/`int` raise, modelled as `none`. -/
def decodeStep (td : Ledger) (text : String) : Option Ledger :=
  if strContainsChar text '|' then
    match strSplitOnChar text '|' with
    | p0 :: p1 :: p2 :: p3 :: _ =>
      let confOpt : Option ℚ :=
        if pyStrip p2 == "" then some 0 else pyFloat (pyStrip p2)
      let cntOpt : Option ℤ :=
        if pyStrip p3 == "" then some 0 else pyInt (pyStrip p3)
      match confOpt, cntOpt with
      | some c, some n => some (dictInsert td (pyStrip p0) ⟨pyStrip p1, c, n⟩)
      | _, _ => none
    | _ => some td
  else some td

/-- Folds `decodeStep` over the block texts in order. -/
def decodeGo (td : Ledger) : List String → Option Ledger
  | [] => some td
  | t :: ts =>
    match decodeStep td t with
    | some td2 => decodeGo td2 ts
    | none => none

/-- Model of `get_page_tracking_data` (src/helpers/__init__.py lines 181-204)
applied to the extracted texts of the ledger page's blocks. `none`
models an uncaught `ValueError` escaping the function. -/
def get_page_tracking_data (texts : List String) : Option Ledger :=
  decodeGo [] texts

/-- Gregorian leap-year test, as in Python's `datetime`. -/
def isLeapYear (y : ℕ) : Bool :=
  (y % 4 == 0 && y % 100 != 0) || y % 400 == 0

/-- Length of month `m` of year `y`. -/
def daysInMonth (y m : ℕ) : ℕ :=
  if m == 2 then (if isLeapYear y then 29 else 28)
  else if m == 4 || m == 6 || m == 9 || m == 11 then 30
  else 31

/-- Days in all years before year `y` (as in `date.toordinal`). -/
def daysBeforeYear (y : ℕ) : ℕ :=
  let py := y - 1
  py * 365 + py / 4 - py / 100 + py / 400

/-- Days in the months of year `y` before month `m`. -/
def daysBeforeMonth (y m : ℕ) : ℕ :=
  ((List.range (m - 1)).map (fun i => daysInMonth y (i + 1))).sum

/-- Proleptic-Gregorian day ordinal of `y-m-d` (0001-01-01 ↦ 1),
identical to Python's `date.toordinal`. -/
def dateOrdinal (y m d : ℕ) : ℕ :=
  daysBeforeYear y + daysBeforeMonth y m + d

/-- All characters are ASCII digits. -/
def allDigits (s : String) : Bool :=
  s.data.all Char.isDigit

/-- Model of `datetime.strptime(s, "%Y-%m-%d")`, returning the parsed
date's ordinal: exactly three dash-separated fields, a 4-digit year,
1-2 digit month and day in range (day checked against the month
length). `none` models the `ValueError` raise. The resulting
`datetime` is midnight of that day, so subtracting it from any
`datetime.now()` of day-ordinal `cur` gives a `timedelta` whose `.days`
is exactly `cur - ordinal`. -/
def pyParseDate (s : String) : Option ℕ :=
  match strSplitOnChar s '-' with
  | [ys, ms, ds] =>
    if ys.length == 4 && allDigits ys
        && decide (1 ≤ ms.length) && decide (ms.length ≤ 2) && allDigits ms
        && decide (1 ≤ ds.length) && decide (ds.length ≤ 2) && allDigits ds then
      let y := digitsToNat ys.data
      let m := digitsToNat ms.data
      let d := digitsToNat ds.data
      if decide (1 ≤ y) && decide (1 ≤ m) && decide (m ≤ 12)
          && decide (1 ≤ d) && decide (d ≤ daysInMonth y m) then
        some (dateOrdinal y m d)
      else none
    else none
  | _ => none

/-- A note (database page) as the core sees it: its identifier and its
extracted plain-text title (empty when the title property is absent). -/
structure Note where
  id : String
  title : String
deriving Repr, DecidableEq

/-- The scorer's reserved-title test (src/helpers/__init__.py line
272): `title.lower() in ["rewise", "review tracker"]`. -/
def scorerReserved (title : String) : Bool :=
  pyLower title == "rewise" || pyLower title == "review tracker"

/-- Score of one page (src/helpers/__init__.py lines 275-285): `1000`
when the page has no ledger record, otherwise
`days_since_review * 10 + (1.0 - confidence) * 50`; `none` models the
`strptime` raise on a malformed stored date. `cur` is the day ordinal
of `datetime.now()`. -/
def scoreOf (td : Ledger) (cur : ℤ) (page : Note) : Option ℚ :=
  match dictLookup td page.id with
  | some r =>
    match pyParseDate r.last_reviewed with
    | some ord => some (((cur - (ord : ℤ) : ℤ) : ℚ) * 10 + (1 - r.confidence) * 50)
    | none => none
  | none => some 1000

/-- The `page_scores` accumulation loop of `select_page_for_review`:
reserved-title pages are skipped, every other page contributes
`(score, page)` in input order. -/
def buildScores (td : Ledger) (cur : ℤ) :
    List (ℚ × Note) → List Note → Option (List (ℚ × Note))
  | acc, [] => some acc
  | acc, page :: rest =>
    if scorerReserved page.title then buildScores td cur acc rest
    else
      match scoreOf td cur page with
      | some s => buildScores td cur (acc ++ [(s, page)]) rest
      | none => none

/-- First pair attaining the maximal score. `page_scores.sort(key=λx:
x[0], reverse=True)` is a stable descending sort, so
`page_scores[0]` is exactly the first pair of maximal score; this
models that sort-then-index composition directly. -/
def argmaxFirst : List (ℚ × Note) → Option (ℚ × Note)
  | [] => none
  | x :: xs =>
    match argmaxFirst xs with
    | none => some x
    | some y => some (if y.1 > x.1 then y else x)

/-- Model of `select_page_for_review` (src/helpers/__init__.py lines 245-294)
over the already-decoded ledger. Outer `none` models an uncaught
`strptime` raise; `some none` is the function returning `None`. -/
def select_page_for_review (pages : List Note) (td : Ledger) (cur : ℤ) :
    Option (Option Note) :=
  if pages.isEmpty then some none
  else
    match buildScores td cur [] pages with
    | none => none
    | some scores =>
      match argmaxFirst scores with
      | none => some none
      | some sp => some (some sp.2)

/-- The successor `(review_count, confidence)` computed by
`update_page_tracking` (src/helpers/__init__.py lines 214-221) before
it is formatted into the appended ledger line. -/
def update_page_tracking (td : Ledger) (page_id : String) : ℤ × ℚ :=
  match dictLookup td page_id with
  | some r => (r.review_count + 1, min (r.confidence + 0.1) 1.0)
  | none => (1, 0.1)

/-- The `SPECIAL_PAGES` list (src/dashboard_helpers.py lines 60-65), including
its duplicated last element. -/
def SPECIAL_PAGES : List String :=
  ["rewise", "review tracker", "rewise dashboard", "rewise dashboard"]

/-- The dashboard's reserved-page test (src/dashboard_helpers.py line
76): `any(special.lower() in title.lower() or title.lower() in
special.lower() for special in SPECIAL_PAGES)`. -/
def isSpecialDashboard (title : String) : Bool :=
  SPECIAL_PAGES.any (fun special =>
    strIn (pyLower special) (pyLower title) || strIn (pyLower title) (pyLower special))

/-- The fields of the metrics dictionary built by
`calculate_dashboard_metrics` that derive from the eligible-page
filter and the ledger (the `recently_reviewed` display list, which is
presentation-only, is not carried). -/
structure DashboardMetrics where
  total_pages : ℕ
  pages_reviewed_this_week : ℕ
  never_reviewed_count : ℕ
  never_reviewed : List String
  overdue_pages : List (String × ℤ × ℚ)
  total_mcqs : ℤ
  avg_confidence : ℚ
  total_reviewed : ℕ
deriving Repr, DecidableEq

/-- The loop over `tracking_data.items()` (src/dashboard_helpers.py
lines 85-88): parse every record's date (a malformed one raises) and
count those on or after `week_ago = now - 7 days`; `now` is taken at
its date ordinal `cur`. -/
def weekCountGo (cur : ℤ) (acc : ℕ) : Ledger → Option ℕ
  | [] => some acc
  | (_, r) :: rest =>
    match pyParseDate r.last_reviewed with
    | some ord => weekCountGo cur (if (ord : ℤ) ≥ cur - 7 then acc + 1 else acc) rest
    | none => none

/-- The overdue-pages loop (src/dashboard_helpers.py lines 121-137):
for each regular page with a ledger record, `(title, days_overdue,
confidence)` in page order; a malformed stored date raises. -/
def overdueGo (td : Ledger) (cur : ℤ) (acc : List (String × ℤ × ℚ)) :
    List Note → Option (List (String × ℤ × ℚ))
  | [] => some acc
  | page :: rest =>
    match dictLookup td page.id with
    | some r =>
      match pyParseDate r.last_reviewed with
      | some ord => overdueGo td cur (acc ++ [(page.title, cur - (ord : ℤ), r.confidence)]) rest
      | none => none
    | none => overdueGo td cur acc rest

/-- The never-reviewed list (src/dashboard_helpers.py lines 110-118):
titles of regular pages whose id has no ledger record, in page order. -/
def neverReviewedTitles (pages : List Note) (td : Ledger) : List String :=
  (pages.filter (fun p => (dictLookup td p.id).isNone)).map (fun p => p.title)

/-- Model of `calculate_dashboard_metrics` (src/dashboard_helpers.py lines
53-158) over the already-decoded ledger. `cur` is the day ordinal of
`datetime.now()`. `none` models an uncaught `strptime` raise (the
record-date loop runs before the overdue loop, as in the source). -/
def calculate_dashboard_metrics (pages : List Note) (td : Ledger) (cur : ℤ) :
    Option DashboardMetrics :=
  let regular_pages := pages.filter (fun p => !(isSpecialDashboard p.title))
  match weekCountGo cur 0 td with
  | none => none
  | some wk =>
    let nr := neverReviewedTitles regular_pages td
    match overdueGo td cur [] regular_pages with
    | none => none
    | some od =>
      some ⟨regular_pages.length, wk, nr.length, nr.take 10,
            (List.insertionSort (fun a b => a.2.1 ≥ b.2.1) od).take 10,
            (td.map (fun e => e.2.review_count)).sum,
            (if td.isEmpty then 0 else (td.map (fun e => e.2.confidence)).sum / (td.length : ℚ)),
            td.length⟩

/-- The answer-line test of `parse_mcqs` (src/helpers/__init__.py line
336): `line.strip().startswith(("Answer:", "Answer -", "Correct
Answer:"))`. -/
def answerMarker (line : String) : Bool :=
  startsWithStr (pyStrip line) "Answer:" || startsWithStr (pyStrip line) "Answer -"
    || startsWithStr (pyStrip line) "Correct Answer:"

/-- The explanation-line test of `parse_mcqs` (src/helpers/__init__.py
line 332). -/
def explanationMarker (line : String) : Bool :=
  startsWithStr (pyStrip line) "Explanation:" || startsWithStr (pyStrip line) "Explanation -"

/-- The line loop of `parse_mcqs` (src/helpers/__init__.py lines
326-340): every line joins `full_lines`; in skip mode lines are
dropped from `questions_lines` until an explanation line clears the
flag; an answer line sets the flag; all other lines join
`questions_lines`. -/
def parseMcqsGo (qs fs : List String) (skip : Bool) :
    List String → List String × List String
  | [] => (qs, fs)
  | line :: rest =>
    if skip then
      parseMcqsGo qs (fs ++ [line]) (!(explanationMarker line)) rest
    else if answerMarker line then
      parseMcqsGo qs (fs ++ [line]) true rest
    else
      parseMcqsGo (qs ++ [line]) (fs ++ [line]) skip rest

/-- Model of `parse_mcqs` (src/helpers/__init__.py lines 315-342): returns
`(questions_only, full_with_answers)`. -/
def parse_mcqs (text : String) : String × String :=
  let r := parseMcqsGo [] [] false (strSplitOnChar text '\n')
  (joinLines "\n" r.1, joinLines "\n" r.2)

/-- The questions-only line list of `parse_mcqs`, before joining. -/
def questionLines (text : String) : List String :=
  (parseMcqsGo [] [] false (strSplitOnChar text '\n')).1

/-- The full-view line list of `parse_mcqs`, before joining. -/
def fullLines (text : String) : List String :=
  (parseMcqsGo [] [] false (strSplitOnChar text '\n')).2

/-- A block text whose non-empty confidence and count fields (when the
block has the record shape) parse as numbers, so that decoding it
cannot raise. -/
def goodText (t : String) : Bool :=
  match strSplitOnChar t '|' with
  | _ :: _ :: p2 :: p3 :: _ =>
    (pyStrip p2 == "" || (pyFloat (pyStrip p2)).isSome)
      && (pyStrip p3 == "" || (pyInt (pyStrip p3)).isSome)
  | _ => true

/-- Modelled from the claim's words (C1), not from the code: the
item-count field of a record block is the sixth pipe-delimited field
(written by the updater as `"<N> MCQs"`), read as its leading digit
run, with an absent field treated as `0`. -/
def itemCountField (parts : List String) : ℤ :=
  match parts.drop 5 with
  | p :: _ => (digitsToNat ((pyStrip p).data.takeWhile Char.isDigit) : ℤ)
  | [] => 0

/-- Modelled from the claim's words (C1): the per-`note_id`
item-count mapping over the ledger blocks, last occurrence winning,
over the same record-shaped blocks the decoder accepts. -/
def claimItemGo (d : List (String × ℤ)) : List String → List (String × ℤ)
  | [] => d
  | t :: ts =>
    if strContainsChar t '|' then
      match strSplitOnChar t '|' with
      | p0 :: _ :: _ :: _ :: _ =>
        claimItemGo (dictInsert d (pyStrip p0) (itemCountField (strSplitOnChar t '|'))) ts
      | _ => claimItemGo d ts
    else claimItemGo d ts

/-- Modelled from the claim's words (C1): the sum over all ledger
records of the per-record item-count field. -/
def claimTotalItemCount (texts : List String) : ℤ :=
  ((claimItemGo [] texts).map (fun e => e.2)).sum

/-- No eligible page of the input makes the scorer's `strptime` call
raise: every non-reserved page with a ledger record has a parseable
`last_reviewed` date. -/
abbrev SelectParses (pages : List Note) (td : Ledger) (cur : ℤ) : Prop :=
  ∀ p ∈ pages, scorerReserved p.title = false → scoreOf td cur p ≠ none

/-- The scored pairs the `page_scores` loop produces, in input order:
one `(score, page)` per non-reserved page (defined when no date
parse fails). -/
def eligScores (td : Ledger) (cur : ℤ) (pages : List Note) : List (ℚ × Note) :=
  pages.filterMap (fun p =>
    if scorerReserved p.title then none
    else (scoreOf td cur p).map (fun s => (s, p)))

/-- The C3 contract of `select_page_for_review`: it does not raise; it
returns `None` exactly when no eligible (non-reserved) page remains;
a returned page is an eligible input page of maximal score, and the
first page of that score in input order; a page absent from the
ledger scores `1000` and a present one scores
`days_since_review * 10 + (1.0 - confidence) * 50`. -/
def SelectSpec (pages : List Note) (td : Ledger) (cur : ℤ) : Prop :=
  select_page_for_review pages td cur ≠ none
  ∧ (select_page_for_review pages td cur = some none
      ↔ pages.filter (fun p => !(scorerReserved p.title)) = [])
  ∧ (∀ p, select_page_for_review pages td cur = some (some p) →
      p ∈ pages ∧ scorerReserved p.title = false
        ∧ ∃ s, scoreOf td cur p = some s
          ∧ (∀ q ∈ pages, scorerReserved q.title = false →
              ∀ sq, scoreOf td cur q = some sq → sq ≤ s)
          ∧ ∃ l1 l2, pages = l1 ++ p :: l2
              ∧ ∀ q ∈ l1, scorerReserved q.title = false →
                  ∀ sq, scoreOf td cur q = some sq → sq < s)
  ∧ (∀ p, dictLookup td p.id = none → scoreOf td cur p = some 1000)
  ∧ (∀ p r, dictLookup td p.id = some r →
      ∀ ord, pyParseDate r.last_reviewed = some ord →
        scoreOf td cur p = some (((cur - (ord : ℤ) : ℤ) : ℚ) * 10 + (1 - r.confidence) * 50))

/-! ### Helper lemmas -/

theorem find_map_overwrite {α : Type} (k : String) (v : α) :
    ∀ d : List (String × α), d.any (fun p => p.1 == k) = true →
      (d.map (fun p => if p.1 == k then (k, v) else p)).find? (fun p => p.1 == k)
        = some (k, v) := by
  intro d
  induction d with
  | nil => simp
  | cons a d ih =>
    intro h
    by_cases ha : (a.1 == k) = true
    · rw [List.map_cons, if_pos ha]
      exact List.find?_cons_of_pos _ (by simp)
    · rw [List.map_cons, if_neg ha, List.find?_cons_of_neg _ (by simpa using ha)]
      apply ih
      simpa [ha] using h

theorem dictLookup_dictInsert {α : Type} (d : List (String × α)) (k : String) (v : α) :
    dictLookup (dictInsert d k v) k = some v := by
  unfold dictInsert dictLookup
  cases hany : d.any (fun p => p.1 == k) with
  | true =>
    simp only [hany, if_true]
    rw [find_map_overwrite k v d hany]
    rfl
  | false =>
    simp only [hany, Bool.false_eq_true, if_false]
    have hnone : d.find? (fun p => p.1 == k) = none := by
      rw [List.find?_eq_none]
      intro x hx
      exact List.any_eq_false.mp hany x hx
    rw [List.find?_append, hnone]
    simp [List.find?]

theorem decodeGo_append (ys : List String) :
    ∀ xs : List String, ∀ acc : Ledger,
      decodeGo acc (xs ++ ys) = (decodeGo acc xs).bind (fun d => decodeGo d ys) := by
  intro xs
  induction xs with
  | nil => intro acc; simp [decodeGo]
  | cons x xs ih =>
    intro acc
    simp only [List.cons_append, decodeGo]
    cases h : decodeStep acc x with
    | none => simp
    | some d2 => simp [ih d2]

theorem decodeGo_single (d : Ledger) (t : String) :
    decodeGo d [t] = decodeStep d t := by
  unfold decodeGo
  cases h : decodeStep d t with
  | none => rfl
  | some d2 => rfl

theorem get_tracking_append (texts : List String) (t : String) :
    get_page_tracking_data (texts ++ [t])
      = (get_page_tracking_data texts).bind (fun d => decodeStep d t) := by
  unfold get_page_tracking_data
  rw [decodeGo_append [t] texts []]
  cases h : decodeGo [] texts with
  | none => rfl
  | some d => simp [decodeGo_single]

theorem decodeStep_skip (d : Ledger) (t : String)
    (h : strContainsChar t '|' = false ∨ (strSplitOnChar t '|').length < 4) :
    decodeStep d t = some d := by
  unfold decodeStep
  rcases h with h | h
  · simp [h]
  · cases hc : strContainsChar t '|' with
    | false => simp
    | true =>
      simp only [if_true]
      revert h
      generalize strSplitOnChar t '|' = l
      intro h
      rcases l with _ | ⟨p0, _ | ⟨p1, _ | ⟨p2, _ | ⟨p3, tl⟩⟩⟩⟩
      · rfl
      · rfl
      · rfl
      · rfl
      · exfalso; simp [List.length] at h; omega

theorem decodeStep_record (d : Ledger) (t p0 p1 p2 p3 : String) (tl : List String)
    (c : ℚ) (n : ℤ)
    (hc : strContainsChar t '|' = true)
    (hsp : strSplitOnChar t '|' = p0 :: p1 :: p2 :: p3 :: tl)
    (hconf : (if pyStrip p2 == "" then some 0 else pyFloat (pyStrip p2)) = some c)
    (hcnt : (if pyStrip p3 == "" then some 0 else pyInt (pyStrip p3)) = some n) :
    decodeStep d t = some (dictInsert d (pyStrip p0) ⟨pyStrip p1, c, n⟩) := by
  unfold decodeStep
  simp only [hc, if_true, hsp, hconf, hcnt]

theorem decodeStep_isSome (d : Ledger) (t : String) (h : goodText t = true) :
    (decodeStep d t).isSome = true := by
  unfold goodText at h
  unfold decodeStep
  cases hc : strContainsChar t '|' with
  | false => simp
  | true =>
    simp only [if_true]
    revert h
    generalize strSplitOnChar t '|' = l
    intro h
    rcases l with _ | ⟨p0, _ | ⟨p1, _ | ⟨p2, _ | ⟨p3, tl⟩⟩⟩⟩
    · rfl
    · rfl
    · rfl
    · rfl
    · simp only [Bool.and_eq_true, Bool.or_eq_true] at h
      obtain ⟨h2, h3⟩ := h
      have hcopt : ∃ c, (if pyStrip p2 == "" then some (0 : ℚ) else pyFloat (pyStrip p2)) = some c := by
        rcases h2 with h2 | h2
        · exact ⟨0, by simp [h2]⟩
        · obtain ⟨c, hcv⟩ := Option.isSome_iff_exists.mp h2
          by_cases he : (pyStrip p2 == "") = true
          · exact ⟨0, by simp [he]⟩
          · exact ⟨c, by simp [he, hcv]⟩
      have hnopt : ∃ n, (if pyStrip p3 == "" then some (0 : ℤ) else pyInt (pyStrip p3)) = some n := by
        rcases h3 with h3 | h3
        · exact ⟨0, by simp [h3]⟩
        · obtain ⟨n, hnv⟩ := Option.isSome_iff_exists.mp h3
          by_cases he : (pyStrip p3 == "") = true
          · exact ⟨0, by simp [he]⟩
          · exact ⟨n, by simp [he, hnv]⟩
      obtain ⟨c, hcv⟩ := hcopt
      obtain ⟨n, hnv⟩ := hnopt
      simp only [hcv, hnv, Option.isSome_some]

theorem decodeGo_isSome :
    ∀ ts : List String, (∀ t ∈ ts, goodText t = true) →
      ∀ acc : Ledger, (decodeGo acc ts).isSome = true := by
  intro ts
  induction ts with
  | nil => intro _ acc; simp [decodeGo]
  | cons t ts ih =>
    intro h acc
    have hstep := decodeStep_isSome acc t (h t (by simp))
    unfold decodeGo
    cases hs : decodeStep acc t with
    | none => rw [hs] at hstep; simp at hstep
    | some d2 => exact ih (fun x hx => h x (by simp [hx])) d2

theorem parseMcqsGo_full :
    ∀ (lines : List String) (qs fs : List String) (skip : Bool),
      (parseMcqsGo qs fs skip lines).2 = fs ++ lines := by
  intro lines
  induction lines with
  | nil => intro qs fs skip; simp [parseMcqsGo]
  | cons line rest ih =>
    intro qs fs skip
    unfold parseMcqsGo
    by_cases hs : skip = true
    · simp [hs, ih]
    · by_cases ha : answerMarker line = true
      · simp [hs, ha, ih]
      · simp [hs, ha, ih]

theorem parseMcqsGo_questions :
    ∀ (lines : List String) (qs fs : List String) (skip : Bool),
      (∀ l ∈ qs, answerMarker l = false) →
      ∀ l ∈ (parseMcqsGo qs fs skip lines).1, answerMarker l = false := by
  intro lines
  induction lines with
  | nil => intro qs fs skip hq; simpa [parseMcqsGo] using hq
  | cons line rest ih =>
    intro qs fs skip hq
    unfold parseMcqsGo
    cases skip with
    | true =>
      simp only [if_true]
      exact ih qs (fs ++ [line]) _ hq
    | false =>
      simp only [Bool.false_eq_true, if_false]
      cases ha : answerMarker line with
      | true =>
        simp only [if_true]
        exact ih qs (fs ++ [line]) true hq
      | false =>
        simp only [Bool.false_eq_true, if_false]
        refine ih (qs ++ [line]) (fs ++ [line]) false ?_
        intro l hl
        rcases List.mem_append.mp hl with hl | hl
        · exact hq l hl
        · simp only [List.mem_singleton] at hl
          subst hl
          exact ha

theorem dictLookup_mem {α : Type} (d : List (String × α)) (k : String) (v : α)
    (h : dictLookup d k = some v) : ∃ e ∈ d, e.2 = v := by
  unfold dictLookup at h
  obtain ⟨a, ha, hav⟩ := Option.map_eq_some'.mp h
  exact ⟨a, List.mem_of_find?_eq_some ha, hav⟩

theorem argmaxFirst_eq_none (l : List (ℚ × Note)) :
    argmaxFirst l = none ↔ l = [] := by
  cases l with
  | nil => simp [argmaxFirst]
  | cons x xs =>
    unfold argmaxFirst
    cases h : argmaxFirst xs <;> simp

theorem argmaxFirst_spec :
    ∀ (l : List (ℚ × Note)) (y : ℚ × Note), argmaxFirst l = some y →
      ∃ l1 l2, l = l1 ++ y :: l2 ∧ (∀ z ∈ l1, z.1 < y.1) ∧ (∀ z ∈ l, z.1 ≤ y.1) := by
  intro l
  induction l with
  | nil => intro y hy; simp [argmaxFirst] at hy
  | cons x xs ih =>
    intro y hy
    unfold argmaxFirst at hy
    cases hx : argmaxFirst xs with
    | none =>
      rw [hx] at hy
      have hxs : xs = [] := (argmaxFirst_eq_none xs).mp hx
      subst hxs
      simp only [Option.some.injEq] at hy
      subst hy
      exact ⟨[], [], by simp, by simp, by simp⟩
    | some b =>
      rw [hx] at hy
      simp only [Option.some.injEq] at hy
      obtain ⟨l1, l2, hsplit, hlt, hub⟩ := ih b hx
      by_cases hgt : b.1 > x.1
      · rw [if_pos hgt] at hy
        subst hy
        refine ⟨x :: l1, l2, by simp [hsplit], ?_, ?_⟩
        · intro z hz
          rcases List.mem_cons.mp hz with hz | hz
          · subst hz; exact hgt
          · exact hlt z hz
        · intro z hz
          rcases List.mem_cons.mp hz with hz | hz
          · subst hz; exact le_of_lt hgt
          · exact hub z hz
      · rw [if_neg hgt] at hy
        subst hy
        refine ⟨[], xs, by simp, by simp, ?_⟩
        intro z hz
        rcases List.mem_cons.mp hz with hz | hz
        · subst hz; exact le_refl _
        · exact le_trans (hub z hz) (not_lt.mp hgt)

theorem buildScores_eq (td : Ledger) (cur : ℤ) :
    ∀ (pages : List Note) (acc : List (ℚ × Note)),
      (∀ p ∈ pages, scorerReserved p.title = false → scoreOf td cur p ≠ none) →
      buildScores td cur acc pages = some (acc ++ eligScores td cur pages) := by
  intro pages
  induction pages with
  | nil => intro acc _; simp [buildScores, eligScores]
  | cons p ps ih =>
    intro acc h
    unfold buildScores
    cases hr : scorerReserved p.title with
    | true =>
      simp only [if_true]
      rw [ih acc (fun q hq => h q (by simp [hq]))]
      simp [eligScores, List.filterMap_cons, hr]
    | false =>
      simp only [Bool.false_eq_true, if_false]
      cases hsc : scoreOf td cur p with
      | none => exact absurd hsc (h p (by simp) hr)
      | some s =>
        have hrec := ih (acc ++ [(s, p)]) (fun q hq => h q (by simp [hq]))
        simp only [hrec]
        simp [eligScores, List.filterMap_cons, hr, hsc]

theorem buildScores_mem (td : Ledger) (cur : ℤ) :
    ∀ (pages : List Note) (acc scores : List (ℚ × Note)),
      buildScores td cur acc pages = some scores →
      ∀ z ∈ scores, z ∈ acc ∨ (scorerReserved z.2.title = false ∧ z.2 ∈ pages
        ∧ scoreOf td cur z.2 = some z.1) := by
  intro pages
  induction pages with
  | nil =>
    intro acc scores h z hz
    simp only [buildScores, Option.some.injEq] at h
    subst h
    exact Or.inl hz
  | cons p ps ih =>
    intro acc scores h z hz
    unfold buildScores at h
    cases hr : scorerReserved p.title with
    | true =>
      rw [hr] at h
      simp only [if_true] at h
      rcases ih acc scores h z hz with hmem | ⟨hres, hpmem, hsc⟩
      · exact Or.inl hmem
      · exact Or.inr ⟨hres, by simp [hpmem], hsc⟩
    | false =>
      rw [hr] at h
      simp only [Bool.false_eq_true, if_false] at h
      cases hsc : scoreOf td cur p with
      | none => rw [hsc] at h; exact absurd h (by simp)
      | some s =>
        rw [hsc] at h
        rcases ih (acc ++ [(s, p)]) scores h z hz with hmem | ⟨hres, hpmem, hz2⟩
        · rcases List.mem_append.mp hmem with hmem | hmem
          · exact Or.inl hmem
          · simp only [List.mem_singleton] at hmem
            subst hmem
            exact Or.inr ⟨hr, by simp, hsc⟩
        · exact Or.inr ⟨hres, by simp [hpmem], hz2⟩

theorem filterMap_split {α β : Type} (f : α → Option β) :
    ∀ (l : List α) (L1 : List β) (y : β) (L2 : List β),
      l.filterMap f = L1 ++ y :: L2 →
      ∃ l1 a l2, l = l1 ++ a :: l2 ∧ f a = some y ∧ l1.filterMap f = L1 := by
  intro l
  induction l with
  | nil =>
    intro L1 y L2 h
    simp only [List.filterMap_nil] at h
    exact absurd h.symm (List.append_ne_nil_of_right_ne_nil _ (by simp))
  | cons a l ih =>
    intro L1 y L2 h
    cases hfa : f a with
    | none =>
      rw [List.filterMap_cons_none hfa] at h
      obtain ⟨l1, b, l2, hsplit, hfb, hmap⟩ := ih L1 y L2 h
      exact ⟨a :: l1, b, l2, by simp [hsplit], hfb,
        by rw [List.filterMap_cons_none hfa]; exact hmap⟩
    | some b =>
      rw [List.filterMap_cons_some hfa] at h
      cases L1 with
      | nil =>
        simp only [List.nil_append, List.cons.injEq] at h
        exact ⟨[], a, l, by simp, by rw [hfa, h.1], by simp⟩
      | cons c L1 =>
        simp only [List.cons_append, List.cons.injEq] at h
        obtain ⟨l1, e, l2, hsplit, hfe, hmap⟩ := ih L1 y L2 h.2
        exact ⟨a :: l1, e, l2, by simp [hsplit], hfe,
          by rw [List.filterMap_cons_some hfa, hmap, h.1]⟩

theorem eligScores_f_eq (td : Ledger) (cur : ℤ) (a : Note) (z : ℚ × Note)
    (h : (if scorerReserved a.title then none
          else (scoreOf td cur a).map (fun s => (s, a))) = some z) :
    z.2 = a ∧ scorerReserved a.title = false ∧ scoreOf td cur a = some z.1 := by
  cases hr : scorerReserved a.title with
  | true => rw [hr] at h; simp at h
  | false =>
    rw [hr] at h
    simp only [Bool.false_eq_true, if_false, Option.map_eq_some'] at h
    obtain ⟨s, hs, hz⟩ := h
    subst hz
    exact ⟨rfl, rfl, hs⟩

theorem eligScores_mem_of (td : Ledger) (cur : ℤ) (pages : List Note)
    (q : Note) (sq : ℚ) (hq : q ∈ pages) (hr : scorerReserved q.title = false)
    (hs : scoreOf td cur q = some sq) : (sq, q) ∈ eligScores td cur pages :=
  List.mem_filterMap.mpr ⟨q, hq, by simp [hr, hs]⟩

theorem argmaxFirst_mem (l : List (ℚ × Note)) (y : ℚ × Note)
    (h : argmaxFirst l = some y) : y ∈ l := by
  obtain ⟨l1, l2, hsplit, -, -⟩ := argmaxFirst_spec l y h
  subst hsplit
  simp

theorem overdueGo_mem (td : Ledger) (cur : ℤ) :
    ∀ (pages : List Note) (acc od : List (String × ℤ × ℚ)),
      overdueGo td cur acc pages = some od →
      ∀ e ∈ od, e ∈ acc ∨ ∃ p ∈ pages, e.1 = p.title := by
  intro pages
  induction pages with
  | nil =>
    intro acc od h e he
    simp only [overdueGo, Option.some.injEq] at h
    subst h
    exact Or.inl he
  | cons p ps ih =>
    intro acc od h e he
    unfold overdueGo at h
    cases hl : dictLookup td p.id with
    | none =>
      rw [hl] at h
      rcases ih acc od h e he with hmem | ⟨q, hq, ht⟩
      · exact Or.inl hmem
      · exact Or.inr ⟨q, by simp [hq], ht⟩
    | some r =>
      rw [hl] at h
      have h2 : (match pyParseDate r.last_reviewed with
          | some ord => overdueGo td cur (acc ++ [(p.title, cur - (ord : ℤ), r.confidence)]) ps
          | none => none) = some od := h
      cases hd : pyParseDate r.last_reviewed with
      | none => rw [hd] at h2; exact absurd h2 (by simp)
      | some ord =>
        rw [hd] at h2
        rcases ih (acc ++ [(p.title, cur - (ord : ℤ), r.confidence)]) od h2 e he with
          hmem | ⟨q, hq, ht⟩
        · rcases List.mem_append.mp hmem with hmem | hmem
          · exact Or.inl hmem
          · simp only [List.mem_singleton] at hmem
            subst hmem
            exact Or.inr ⟨p, by simp, rfl⟩
        · exact Or.inr ⟨q, by simp [hq], ht⟩

theorem metrics_eq (pages : List Note) (td : Ledger) (cur : ℤ) (m : DashboardMetrics)
    (hm : calculate_dashboard_metrics pages td cur = some m) :
    ∃ wk od, weekCountGo cur 0 td = some wk
      ∧ overdueGo td cur [] (pages.filter (fun p => !(isSpecialDashboard p.title))) = some od
      ∧ m = ⟨(pages.filter (fun p => !(isSpecialDashboard p.title))).length, wk,
          (neverReviewedTitles (pages.filter (fun p => !(isSpecialDashboard p.title))) td).length,
          (neverReviewedTitles (pages.filter (fun p => !(isSpecialDashboard p.title))) td).take 10,
          (List.insertionSort (fun a b => a.2.1 ≥ b.2.1) od).take 10,
          (td.map (fun e => e.2.review_count)).sum,
          (if td.isEmpty then 0 else (td.map (fun e => e.2.confidence)).sum / (td.length : ℚ)),
          td.length⟩ := by
  simp only [calculate_dashboard_metrics] at hm
  cases hwk : weekCountGo cur 0 td with
  | none => rw [hwk] at hm; simp at hm
  | some wk =>
    rw [hwk] at hm
    cases hod : overdueGo td cur [] (pages.filter (fun p => !(isSpecialDashboard p.title))) with
    | none => rw [hod] at hm; simp at hm
    | some od =>
      rw [hod] at hm
      simp only [Option.some.injEq] at hm
      exact ⟨wk, od, rfl, rfl, hm.symm⟩

/-! ### Claim theorems -/

/-- C4: a tracking update on a page with no prior ledger record yields
`review_count = 1` and `confidence = 0.1`; with a prior record it
yields `review_count + 1` and `min(confidence + 0.1, 1.0)`, so a prior
confidence of `0.95` yields exactly `1.0`, never `1.05`. -/
theorem update_tracking_spec (td : Ledger) (pid : String) :
    (dictLookup td pid = none → update_page_tracking td pid = (1, 0.1))
    ∧ (∀ r, dictLookup td pid = some r →
        update_page_tracking td pid = (r.review_count + 1, min (r.confidence + 0.1) 1.0))
    ∧ (∀ r, dictLookup td pid = some r → r.confidence = 0.95 →
        (update_page_tracking td pid).2 = 1.0) := by
  refine ⟨?_, ?_, ?_⟩
  · intro h
    unfold update_page_tracking
    rw [h]
  · intro r h
    unfold update_page_tracking
    rw [h]
  · intro r h hc
    unfold update_page_tracking
    rw [h]
    simp only [hc]
    norm_num [min_def]

theorem update_tracking_spec_witness :
    dictLookup [("a", TrackingRecord.mk "2024-01-01" 0.95 3)] "a"
        = some (TrackingRecord.mk "2024-01-01" 0.95 3)
    ∧ (update_page_tracking [("a", TrackingRecord.mk "2024-01-01" 0.95 3)] "a").2 = 1.0 :=
  ⟨by with_unfolding_all decide,
   (update_tracking_spec [("a", TrackingRecord.mk "2024-01-01" 0.95 3)] "a").2.2
     (TrackingRecord.mk "2024-01-01" 0.95 3) (by with_unfolding_all decide) rfl⟩

/-- C8: assuming every existing ledger record has `review_count ≥ 1`,
the successor record computed by the update cycle has
`review_count ≥ 1` and `confidence ≤ 1.0`, starts at `(1, 0.1)` on a
first review, and never decreases the page's review count. -/
theorem tracking_invariant_preserved (td : Ledger) (pid : String)
    (hinv : ∀ e ∈ td, 1 ≤ e.2.review_count) :
    1 ≤ (update_page_tracking td pid).1
    ∧ (update_page_tracking td pid).2 ≤ 1.0
    ∧ (dictLookup td pid = none → update_page_tracking td pid = (1, 0.1))
    ∧ (∀ r, dictLookup td pid = some r →
        r.review_count ≤ (update_page_tracking td pid).1) := by
  cases hl : dictLookup td pid with
  | none =>
    unfold update_page_tracking
    rw [hl]
    refine ⟨by norm_num, by norm_num, fun _ => rfl, fun r hr => by simp at hr⟩
  | some r =>
    obtain ⟨e, hemem, hev⟩ := dictLookup_mem td pid r hl
    have hrc : 1 ≤ r.review_count := hev ▸ hinv e hemem
    unfold update_page_tracking
    rw [hl]
    refine ⟨by dsimp only; omega, by dsimp only; exact min_le_right _ _, ?_, ?_⟩
    · intro hnone; exact absurd hnone (by simp)
    · intro r2 hr2
      simp only [Option.some.injEq] at hr2
      subst hr2
      dsimp only
      omega

theorem tracking_invariant_preserved_witness :
    (∀ e ∈ [("a", TrackingRecord.mk "2024-01-01" 0.9 2)], 1 ≤ e.2.review_count)
    ∧ 1 ≤ (update_page_tracking [("a", TrackingRecord.mk "2024-01-01" 0.9 2)] "b").1
    ∧ (update_page_tracking [("a", TrackingRecord.mk "2024-01-01" 0.9 2)] "b").2 ≤ 1.0 :=
  ⟨by decide,
   (tracking_invariant_preserved [("a", TrackingRecord.mk "2024-01-01" 0.9 2)] "b"
     (by decide)).1,
   (tracking_invariant_preserved [("a", TrackingRecord.mk "2024-01-01" 0.9 2)] "b"
     (by decide)).2.1⟩

/-- C6 counterexample: a ledger line whose confidence field is
non-empty but not a number makes `float(...)` raise, so the decode
aborts instead of returning a mapping. -/
theorem decode_aborts_on_nonnumeric :
    get_page_tracking_data ["a|2024-01-01|abc|5"] = none := by decide

/-- C6 (amended): decoding never raises and yields a ledger mapping
provided every record-shaped block's non-empty confidence and count
fields are valid numbers; empty fields still default to `0.0`/`0`. -/
theorem decode_total_on_numeric_fields (texts : List String)
    (h : ∀ t ∈ texts, goodText t = true) :
    (get_page_tracking_data texts).isSome = true :=
  decodeGo_isSome texts h []

theorem decode_total_on_numeric_fields_witness :
    (∀ t ∈ ["a|2024-01-01|0.5|2", "no pipe here", "b|d||"], goodText t = true)
    ∧ (get_page_tracking_data ["a|2024-01-01|0.5|2", "no pipe here", "b|d||"]).isSome = true :=
  ⟨by with_unfolding_all decide,
   decode_total_on_numeric_fields ["a|2024-01-01|0.5|2", "no pipe here", "b|d||"]
     (by with_unfolding_all decide)⟩

/-- C5: ledger decode ignores a block with fewer than 4 pipe-delimited
fields; a record block with empty confidence and count fields yields
the defaults `0.0`/`0`; and appending a record block for a `note_id`
makes the mapping hold exactly that block's values for the id (last
occurrence wins). -/
theorem ledger_decode_spec :
    (∀ (texts : List String) (t : String),
      strContainsChar t '|' = false ∨ (strSplitOnChar t '|').length < 4 →
      get_page_tracking_data (texts ++ [t]) = get_page_tracking_data texts)
    ∧ (∀ (texts : List String) (t p0 p1 p2 p3 : String) (tl : List String),
        strContainsChar t '|' = true →
        strSplitOnChar t '|' = p0 :: p1 :: p2 :: p3 :: tl →
        pyStrip p2 = "" → pyStrip p3 = "" →
        get_page_tracking_data (texts ++ [t])
          = (get_page_tracking_data texts).map
              (fun d => dictInsert d (pyStrip p0) ⟨pyStrip p1, 0, 0⟩))
    ∧ (∀ (texts : List String) (t p0 p1 p2 p3 : String) (tl : List String)
        (c : ℚ) (n : ℤ) (d : Ledger),
        strContainsChar t '|' = true →
        strSplitOnChar t '|' = p0 :: p1 :: p2 :: p3 :: tl →
        (if pyStrip p2 == "" then some 0 else pyFloat (pyStrip p2)) = some c →
        (if pyStrip p3 == "" then some 0 else pyInt (pyStrip p3)) = some n →
        get_page_tracking_data texts = some d →
        get_page_tracking_data (texts ++ [t])
            = some (dictInsert d (pyStrip p0) ⟨pyStrip p1, c, n⟩)
          ∧ dictLookup (dictInsert d (pyStrip p0) (⟨pyStrip p1, c, n⟩ : TrackingRecord))
              (pyStrip p0) = some (⟨pyStrip p1, c, n⟩ : TrackingRecord)) := by
  refine ⟨?_, ?_, ?_⟩
  · intro texts t h
    rw [get_tracking_append]
    cases hg : get_page_tracking_data texts with
    | none => rfl
    | some d => simp [decodeStep_skip d t h]
  · intro texts t p0 p1 p2 p3 tl hc hsp h2 h3
    rw [get_tracking_append]
    cases hg : get_page_tracking_data texts with
    | none => rfl
    | some d =>
      have hstep := decodeStep_record d t p0 p1 p2 p3 tl 0 0 hc hsp
        (by simp [h2]) (by simp [h3])
      simp [hstep]
  · intro texts t p0 p1 p2 p3 tl c n d hc hsp hconf hcnt hg
    have hstep := decodeStep_record d t p0 p1 p2 p3 tl c n hc hsp hconf hcnt
    refine ⟨?_, dictLookup_dictInsert d (pyStrip p0) _⟩
    rw [get_tracking_append, hg]
    simp [hstep]

theorem ledger_decode_spec_witness :
    get_page_tracking_data (["a|2024-01-01|0.5|2"] ++ ["no pipe"])
        = get_page_tracking_data ["a|2024-01-01|0.5|2"]
    ∧ get_page_tracking_data (["a|2024-01-01|0.5|2"] ++ ["b|2024-05-05||"])
        = (get_page_tracking_data ["a|2024-01-01|0.5|2"]).map
            (fun d => dictInsert d "b" ⟨"2024-05-05", 0, 0⟩)
    ∧ (get_page_tracking_data (["a|2024-01-01|0.5|2"] ++ ["a|2024-02-02|0.9|7|T|5 MCQs"])
          = some (dictInsert [("a", ⟨"2024-01-01", 0.5, 2⟩)] "a" ⟨"2024-02-02", 0.9, 7⟩)
        ∧ dictLookup (dictInsert [("a", ⟨"2024-01-01", 0.5, 2⟩)] "a"
            (⟨"2024-02-02", 0.9, 7⟩ : TrackingRecord)) "a"
            = some (⟨"2024-02-02", 0.9, 7⟩ : TrackingRecord)) :=
  ⟨ledger_decode_spec.1 ["a|2024-01-01|0.5|2"] "no pipe" (by with_unfolding_all decide),
   by
    have h := ledger_decode_spec.2.1 ["a|2024-01-01|0.5|2"] "b|2024-05-05||"
      "b" "2024-05-05" "" "" [] (by decide) (by with_unfolding_all decide)
      (by decide) (by decide)
    simpa using h,
   by
    have h := ledger_decode_spec.2.2 ["a|2024-01-01|0.5|2"] "a|2024-02-02|0.9|7|T|5 MCQs"
      "a" "2024-02-02" "0.9" "7" ["T", "5 MCQs"] 0.9 7 [("a", ⟨"2024-01-01", 0.5, 2⟩)]
      (by decide) (by with_unfolding_all decide) (by with_unfolding_all decide)
      (by with_unfolding_all decide) (by with_unfolding_all decide)
    simpa using h⟩

/-- C9 counterexample: a stray explanation line that is not preceded
by an answer line is kept in the questions-only view, which therefore
contains a line starting with an explanation marker. -/
theorem questions_view_keeps_stray_explanation :
    parse_mcqs "Q1: ok?\nExplanation: stray"
        = ("Q1: ok?\nExplanation: stray", "Q1: ok?\nExplanation: stray")
    ∧ explanationMarker "Explanation: stray" = true := by
  exact ⟨by decide, by decide⟩

/-- C9 (amended): the full view of the MCQ split retains every line of
the input, and no line of the questions-only view starts with an
answer marker; explanation lines are only removed while in the
skip state that an answer line starts. -/
theorem parse_mcqs_full_and_answers (text : String) :
    fullLines text = strSplitOnChar text '\n'
    ∧ parse_mcqs text = (joinLines "\n" (questionLines text), joinLines "\n" (fullLines text))
    ∧ ∀ line ∈ questionLines text, answerMarker line = false := by
  refine ⟨?_, rfl, ?_⟩
  · unfold fullLines
    rw [parseMcqsGo_full]
    simp
  · exact parseMcqsGo_questions (strSplitOnChar text '\n') [] [] false (by simp)

theorem parse_mcqs_full_and_answers_witness : answerMarker "Q1: ok?" = false :=
  (parse_mcqs_full_and_answers "Q1: ok?\nAnswer: A\nQ2").2.2 "Q1: ok?" (by decide)

/-- C1 counterexample: a ledger whose sole record has `review_count`
3 and item-count field `7 MCQs` yields `total_mcqs = 3`, the sum of
review counts, which is neither the item-count sum 7 nor 0. -/
theorem total_mcqs_ne_item_count_sum :
    get_page_tracking_data ["a|2024-01-01|0.50|3|Title|7 MCQs"]
        = some [("a", ⟨"2024-01-01", 0.5, 3⟩)]
    ∧ (calculate_dashboard_metrics [] [("a", TrackingRecord.mk "2024-01-01" 0.5 3)] 738890).map
        DashboardMetrics.total_mcqs = some 3
    ∧ claimTotalItemCount ["a|2024-01-01|0.50|3|Title|7 MCQs"] = 7
    ∧ ¬ ((3 : ℤ) = 7 ∨ (3 : ℤ) = 0) := by
  refine ⟨by with_unfolding_all decide, by with_unfolding_all decide, by decide, by decide⟩

/-- C1 (amended): `total_mcqs` is the sum of `review_count` over all
ledger records, not a sum of item counts. -/
theorem total_mcqs_eq_sum_review_count (pages : List Note) (td : Ledger) (cur : ℤ)
    (m : DashboardMetrics) (hm : calculate_dashboard_metrics pages td cur = some m) :
    m.total_mcqs = (td.map (fun e => e.2.review_count)).sum := by
  obtain ⟨wk, od, -, -, hmval⟩ := metrics_eq pages td cur m hm
  subst hmval
  rfl

theorem total_mcqs_eq_sum_review_count_witness :
    calculate_dashboard_metrics [] [("a", TrackingRecord.mk "2024-01-01" 0.5 3)] 738890
        = some ⟨0, 1, 0, [], [], 3, 0.5, 1⟩
    ∧ (DashboardMetrics.mk 0 1 0 [] [] 3 0.5 1).total_mcqs
        = ([("a", TrackingRecord.mk "2024-01-01" 0.5 3)].map
            (fun e => e.2.review_count)).sum :=
  ⟨by with_unfolding_all decide,
   total_mcqs_eq_sum_review_count [] [("a", TrackingRecord.mk "2024-01-01" 0.5 3)] 738890
     ⟨0, 1, 0, [], [], 3, 0.5, 1⟩ (by with_unfolding_all decide)⟩

theorem scoreOf_absent (td : Ledger) (cur : ℤ) (p : Note)
    (hl : dictLookup td p.id = none) : scoreOf td cur p = some 1000 := by
  unfold scoreOf
  rw [hl]

theorem scoreOf_present (td : Ledger) (cur : ℤ) (p : Note) (r : TrackingRecord) (ord : ℕ)
    (hl : dictLookup td p.id = some r) (hord : pyParseDate r.last_reviewed = some ord) :
    scoreOf td cur p = some (((cur - (ord : ℤ) : ℤ) : ℚ) * 10 + (1 - r.confidence) * 50) := by
  unfold scoreOf
  rw [hl]
  have h2 : (match pyParseDate r.last_reviewed with
      | some ord => some (((cur - (ord : ℤ) : ℤ) : ℚ) * 10 + (1 - r.confidence) * 50)
      | none => none)
      = some (((cur - (ord : ℤ) : ℤ) : ℚ) * 10 + (1 - r.confidence) * 50) := by
    rw [hord]
  exact h2

/-- C2 counterexample: with an empty ledger, the scorer returns the
note titled `Rewise Dashboard` even though the non-reserved note
`Math` is present — the scorer does not treat the dashboard title as
reserved. -/
theorem scorer_returns_dashboard_titled_note :
    select_page_for_review [Note.mk "1" "Rewise Dashboard", Note.mk "2" "Math"] [] 0
        = some (some (Note.mk "1" "Rewise Dashboard"))
    ∧ pyLower "Rewise Dashboard" = "rewise dashboard"
    ∧ scorerReserved "Math" = false := by
  refine ⟨by with_unfolding_all decide, by decide, by decide⟩

/-- C2 (amended): whenever the scorer returns a note, that note's
title is case-insensitively neither `rewise` nor `review tracker`
(the titles the scorer actually reserves; the dashboard title is not
excluded by the scorer). -/
theorem scorer_never_selects_rewise_or_tracker (pages : List Note) (td : Ledger) (cur : ℤ)
    (p : Note) (h : select_page_for_review pages td cur = some (some p)) :
    pyLower p.title ≠ "rewise" ∧ pyLower p.title ≠ "review tracker" := by
  unfold select_page_for_review at h
  cases hE : pages.isEmpty with
  | true => rw [hE] at h; simp at h
  | false =>
    rw [hE] at h
    simp only [Bool.false_eq_true, if_false] at h
    cases hb : buildScores td cur [] pages with
    | none => rw [hb] at h; simp at h
    | some scores =>
      rw [hb] at h
      have h2 : (match argmaxFirst scores with
          | none => some none
          | some sp => some (some sp.2)) = some (some p) := h
      cases ha : argmaxFirst scores with
      | none => rw [ha] at h2; simp at h2
      | some sp =>
        rw [ha] at h2
        simp only [Option.some.injEq] at h2
        have hmem := argmaxFirst_mem scores sp ha
        rcases buildScores_mem td cur pages [] scores hb sp hmem with habs | ⟨hres, -, -⟩
        · simp at habs
        · rw [← h2]
          simpa [scorerReserved] using hres

theorem scorer_never_selects_rewise_or_tracker_witness :
    select_page_for_review [Note.mk "1" "Math"] [] 0 = some (some (Note.mk "1" "Math"))
    ∧ (pyLower (Note.mk "1" "Math").title ≠ "rewise"
        ∧ pyLower (Note.mk "1" "Math").title ≠ "review tracker") :=
  ⟨by with_unfolding_all decide,
   scorer_never_selects_rewise_or_tracker [Note.mk "1" "Math"] [] 0 (Note.mk "1" "Math")
     (by with_unfolding_all decide)⟩

/-- C3: the scorer raises on no input whose eligible pages all carry
parseable dates; it returns `None` exactly when no eligible page
remains; a returned page is an eligible input page of maximal score
and the first such page in input order; a page absent from the ledger
scores 1000, a present one
`days_since_review * 10 + (1.0 - confidence) * 50`. -/
theorem select_page_spec (pages : List Note) (td : Ledger) (cur : ℤ)
    (hp : SelectParses pages td cur) : SelectSpec pages td cur := by
  have hbuild : buildScores td cur [] pages = some (eligScores td cur pages) := by
    simpa using buildScores_eq td cur pages [] hp
  have hsel : select_page_for_review pages td cur
      = (if pages.isEmpty then some none
         else match argmaxFirst (eligScores td cur pages) with
           | none => some none
           | some sp => some (some sp.2)) := by
    unfold select_page_for_review
    cases hE : pages.isEmpty with
    | true => simp only [if_true]
    | false =>
      simp only [Bool.false_eq_true, if_false, hbuild]
  refine ⟨?_, ?_, ?_, ?_, ?_⟩
  · rw [hsel]
    cases hE : pages.isEmpty with
    | true => simp
    | false =>
      simp only [Bool.false_eq_true, if_false]
      cases ha : argmaxFirst (eligScores td cur pages) <;> simp
  · rw [hsel]
    cases hE : pages.isEmpty with
    | true =>
      have hpages : pages = [] := List.isEmpty_iff.mp hE
      subst hpages
      simp
    | false =>
      simp only [Bool.false_eq_true, if_false]
      cases ha : argmaxFirst (eligScores td cur pages) with
      | none =>
        have hnil : eligScores td cur pages = [] := (argmaxFirst_eq_none _).mp ha
        constructor
        · intro _
          rw [List.filter_eq_nil_iff]
          intro a hamem hcon
          have hres : scorerReserved a.title = false := by simpa using hcon
          have hne := hp a hamem hres
          cases hsc : scoreOf td cur a with
          | none => exact hne hsc
          | some s =>
            have hm : (s, a) ∈ eligScores td cur pages :=
              eligScores_mem_of td cur pages a s hamem hres hsc
            rw [hnil] at hm
            simp at hm
        · intro _; rfl
      | some sp =>
        constructor
        · intro hcontra; simp at hcontra
        · intro hfil
          exfalso
          have hmem := argmaxFirst_mem _ sp ha
          obtain ⟨a, hamem, hfa⟩ := List.mem_filterMap.mp hmem
          obtain ⟨hza, hres, hsc⟩ := eligScores_f_eq td cur a sp hfa
          have hmf : a ∈ pages.filter (fun p => !(scorerReserved p.title)) :=
            List.mem_filter.mpr ⟨hamem, by simp [hres]⟩
          rw [hfil] at hmf
          simp at hmf
  · intro p hsome
    rw [hsel] at hsome
    cases hE : pages.isEmpty with
    | true => rw [hE] at hsome; simp at hsome
    | false =>
      rw [hE] at hsome
      simp only [Bool.false_eq_true, if_false] at hsome
      cases ha : argmaxFirst (eligScores td cur pages) with
      | none => rw [ha] at hsome; simp at hsome
      | some sp =>
        rw [ha] at hsome
        simp only [Option.some.injEq] at hsome
        obtain ⟨L1, L2, hsplit, hlt, hub⟩ := argmaxFirst_spec _ sp ha
        have hmem : sp ∈ eligScores td cur pages := by rw [hsplit]; simp
        obtain ⟨a, hamem, hfa⟩ := List.mem_filterMap.mp hmem
        obtain ⟨hza, hres, hsc⟩ := eligScores_f_eq td cur a sp hfa
        have hap : a = p := by rw [← hza, hsome]
        subst hap
        refine ⟨hamem, hres, sp.1, hsc, ?_, ?_⟩
        · intro q hq hrq sq hsq
          exact hub (sq, q) (eligScores_mem_of td cur pages q sq hq hrq hsq)
        · obtain ⟨l1, b, l2, hps, hfb, hmapl1⟩ :=
            filterMap_split _ pages L1 sp L2 (by simpa [eligScores] using hsplit)
          obtain ⟨hzb, hresb, hscb⟩ := eligScores_f_eq td cur b sp hfb
          have hbp : b = a := by rw [← hzb, hza]
          subst hbp
          refine ⟨l1, l2, hps, ?_⟩
          intro q hq hrq sq hsq
          have hm1 : (sq, q) ∈ List.filterMap (fun p =>
              if scorerReserved p.title then none
              else (scoreOf td cur p).map (fun s => (s, p))) l1 :=
            List.mem_filterMap.mpr ⟨q, hq, by simp [hrq, hsq]⟩
          rw [hmapl1] at hm1
          exact hlt (sq, q) hm1
  · intro p hl
    exact scoreOf_absent td cur p hl
  · intro p r hl ord hord
    exact scoreOf_present td cur p r ord hl hord

theorem select_page_spec_witness :
    SelectParses [Note.mk "1" "Math"] [] 0 ∧ SelectSpec [Note.mk "1" "Math"] [] 0 :=
  ⟨by decide, select_page_spec [Note.mk "1" "Math"] [] 0 (by decide)⟩

/-- C7 counterexample: the two components do not exclude the same
notes — a note titled `Rewise Dashboard` is excluded by the dashboard
aggregator (its `total_pages` is 0) yet is eligible to, and returned
by, the review scorer. -/
theorem eligibility_rules_differ :
    isSpecialDashboard "Rewise Dashboard" = true
    ∧ scorerReserved "Rewise Dashboard" = false
    ∧ (calculate_dashboard_metrics [Note.mk "1" "Rewise Dashboard"] [] 0).map
        DashboardMetrics.total_pages = some 0
    ∧ select_page_for_review [Note.mk "1" "Rewise Dashboard"] [] 0
        = some (some (Note.mk "1" "Rewise Dashboard")) := by
  refine ⟨by decide, by decide, by with_unfolding_all decide, by with_unfolding_all decide⟩

/-- C7 (amended): the exclusion rules agree in one direction only —
every title the scorer reserves is also excluded by the dashboard's
substring-or-equality rule, but not conversely. -/
theorem scorer_reserved_subset_dashboard (t : String)
    (h : scorerReserved t = true) : isSpecialDashboard t = true := by
  simp only [scorerReserved, Bool.or_eq_true, beq_iff_eq] at h
  rcases h with h | h <;> simp only [isSpecialDashboard, h] <;> decide

theorem scorer_reserved_subset_dashboard_witness :
    scorerReserved "Rewise" = true ∧ isSpecialDashboard "Rewise" = true :=
  ⟨by decide, scorer_reserved_subset_dashboard "Rewise" (by decide)⟩

/-- C10: a note whose lowercased title is a substring of a reserved
title (for instance the empty title, or `dash`) is excluded from the
dashboard's eligible pages, so no note with that title is counted in
`total_pages`, and the title appears in neither `never_reviewed` nor
`overdue_pages`. -/
theorem dashboard_excludes_substring_titles (pages : List Note) (td : Ledger) (cur : ℤ)
    (t : String) (m : DashboardMetrics)
    (hsub : ∃ sp ∈ SPECIAL_PAGES, strIn (pyLower t) (pyLower sp) = true)
    (hm : calculate_dashboard_metrics pages td cur = some m) :
    (∀ n ∈ pages.filter (fun p => !(isSpecialDashboard p.title)), n.title ≠ t)
    ∧ m.total_pages = (pages.filter (fun p => !(isSpecialDashboard p.title))).length
    ∧ t ∉ m.never_reviewed
    ∧ (∀ e ∈ m.overdue_pages, e.1 ≠ t) := by
  obtain ⟨sp, hspmem, hin⟩ := hsub
  have hspecial : isSpecialDashboard t = true := by
    unfold isSpecialDashboard
    rw [List.any_eq_true]
    exact ⟨sp, hspmem, by rw [Bool.or_eq_true]; exact Or.inr hin⟩
  have hreg : ∀ n ∈ pages.filter (fun p => !(isSpecialDashboard p.title)), n.title ≠ t := by
    intro n hn hcon
    have hok := (List.mem_filter.mp hn).2
    rw [hcon, hspecial] at hok
    simp at hok
  obtain ⟨wk, od, hwk, hod, hmval⟩ := metrics_eq pages td cur m hm
  subst hmval
  refine ⟨hreg, rfl, ?_, ?_⟩
  · intro hcon
    have h1 : t ∈ neverReviewedTitles
        (pages.filter (fun p => !(isSpecialDashboard p.title))) td :=
      List.take_subset 10 _ hcon
    unfold neverReviewedTitles at h1
    obtain ⟨q, hq, hqt⟩ := List.mem_map.mp h1
    exact hreg q (List.mem_of_mem_filter hq) hqt
  · intro e he hcon
    have h1 : e ∈ List.insertionSort (fun a b => a.2.1 ≥ b.2.1) od :=
      List.take_subset 10 _ he
    have h2 : e ∈ od :=
      (List.perm_insertionSort (fun a b => a.2.1 ≥ b.2.1) od).mem_iff.mp h1
    rcases overdueGo_mem td cur _ [] od hod e h2 with habs | ⟨q, hq, ht⟩
    · simp at habs
    · exact hreg q hq (ht ▸ hcon)

theorem dashboard_excludes_substring_titles_witness :
    (∃ sp ∈ SPECIAL_PAGES, strIn (pyLower "dash") (pyLower sp) = true)
    ∧ calculate_dashboard_metrics [Note.mk "1" "dash", Note.mk "2" "Math"] [] 0
        = some ⟨1, 0, 1, ["Math"], [], 0, 0, 0⟩
    ∧ "dash" ∉ (DashboardMetrics.mk 1 0 1 ["Math"] [] 0 0 0).never_reviewed :=
  ⟨by decide, by with_unfolding_all decide,
   (dashboard_excludes_substring_titles [Note.mk "1" "dash", Note.mk "2" "Math"] [] 0 "dash"
      ⟨1, 0, 1, ["Math"], [], 0, 0, 0⟩ (by decide) (by with_unfolding_all decide)).2.2.1⟩
